import Mathlib

/-!
Verification of the PostScript special handler (PsSpecialHandler.cpp) of the
dvisvgm converter contained in this TeX Live source tree.  The definitions
below are a shallow embedding of the handler code: numeric values (C++
doubles) are modelled as rationals, the clipping stack and its entries follow
the ClippingStack class, and the drawing operators (scale, translate, rotate,
stroke, fill, setpattern, shfill, initclip, save or restore) are translated
function by function from the source file.  Types and functions that the
handler uses but whose code lies outside this file (the Matrix class, the
GraphicsPath helpers, the shading-patch point counts, the VectorIterator) are
modelled from the specification and marked as such in their documentation.
-/

/-! ## Affine transformation matrices (operators scale, translate, rotate) -/

/-- A 3x3 affine transformation matrix with rational entries, modelling the
Matrix class used by the handler (row-major entries). -/
structure Matrix3 where
  a11 : ℚ
  a12 : ℚ
  a13 : ℚ
  a21 : ℚ
  a22 : ℚ
  a23 : ℚ
  a31 : ℚ
  a32 : ℚ
  a33 : ℚ
deriving DecidableEq

/-- Matrix product of two 3x3 matrices. -/
def m3mul (A B : Matrix3) : Matrix3 :=
  ⟨A.a11*B.a11 + A.a12*B.a21 + A.a13*B.a31,
   A.a11*B.a12 + A.a12*B.a22 + A.a13*B.a32,
   A.a11*B.a13 + A.a12*B.a23 + A.a13*B.a33,
   A.a21*B.a11 + A.a22*B.a21 + A.a23*B.a31,
   A.a21*B.a12 + A.a22*B.a22 + A.a23*B.a32,
   A.a21*B.a13 + A.a22*B.a23 + A.a23*B.a33,
   A.a31*B.a11 + A.a32*B.a21 + A.a33*B.a31,
   A.a31*B.a12 + A.a32*B.a22 + A.a33*B.a32,
   A.a31*B.a13 + A.a32*B.a23 + A.a33*B.a33⟩

/-- The identity matrix, the initial CTM. -/
def idMatrix3 : Matrix3 := ⟨1,0,0, 0,1,0, 0,0,1⟩

/-- Modelled from the spec: Matrix::lmultiply (Matrix.cpp is not part of this
source file) composes by left multiplication, the new matrix is Delta times
the current one. -/
def lmultiply (M Delta : Matrix3) : Matrix3 := m3mul Delta M

/-- Modelled from the spec: the elementary scaling matrix S(a,b)
(ScalingMatrix of Matrix.hpp, not part of this source file). -/
def ScalingMatrix (a b : ℚ) : Matrix3 := ⟨a,0,0, 0,b,0, 0,0,1⟩

/-- Modelled from the spec: the elementary translation matrix T(c,d)
(TranslationMatrix of Matrix.hpp, not part of this source file). -/
def TranslationMatrix (c d : ℚ) : Matrix3 := ⟨1,0,c, 0,1,d, 0,0,1⟩

/-- Modelled from the spec: the elementary rotation matrix (RotationMatrix of
Matrix.hpp, not part of this source file).  The left-multiplication property
does not depend on the trigonometric evaluation of the angle, so the matrix
is parametrized directly by the cosine and the sine of the rotation angle. -/
def RotationMatrix (co si : ℚ) : Matrix3 := ⟨co,-si,0, si,co,0, 0,0,1⟩

/-- PsSpecialHandler::scale: left multiply the scaling delta onto the CTM. -/
def scaleOp (a b : ℚ) (M : Matrix3) : Matrix3 := lmultiply M (ScalingMatrix a b)

/-- PsSpecialHandler::translate: left multiply the translation delta onto the CTM. -/
def translateOp (c d : ℚ) (M : Matrix3) : Matrix3 := lmultiply M (TranslationMatrix c d)

/-- PsSpecialHandler::rotate: left multiply the rotation delta onto the CTM.
The rotation angle is represented by its cosine and sine. -/
def rotateOp (co si : ℚ) (M : Matrix3) : Matrix3 := lmultiply M (RotationMatrix co si)

lemma m3mul_id_right (M : Matrix3) : m3mul M idMatrix3 = M := by
  cases M
  simp [m3mul, idMatrix3]

/-- C1: the operators scale(a,b), translate(c,d) and rotate(angle) each set
the CTM to the left-multiplied product Delta times M, where Delta is the
corresponding elementary affine matrix; in particular, applying scale(a,b)
and then translate(c,d) starting from the identity CTM yields exactly the
matrix T(c,d) times S(a,b). -/
theorem transform_ops_left_multiply (M : Matrix3) (a b c d co si : ℚ) :
    scaleOp a b M = m3mul (ScalingMatrix a b) M ∧
    translateOp c d M = m3mul (TranslationMatrix c d) M ∧
    rotateOp co si M = m3mul (RotationMatrix co si) M ∧
    translateOp c d (scaleOp a b idMatrix3) =
      m3mul (TranslationMatrix c d) (ScalingMatrix a b) := by
  refine ⟨rfl, rfl, rfl, ?_⟩
  simp [scaleOp, translateOp, lmultiply, m3mul_id_right]

/-! ## Paths and the clipping stack -/

/-- A single segment of a graphics path (GraphicsPath commands used by the
handler: moveto, lineto, cubicto, closepath). -/
inductive PathSeg
  | moveto (x y : ℚ)
  | lineto (x y : ℚ)
  | cubicto (x1 y1 x2 y2 x3 y3 : ℚ)
  | closepath
deriving DecidableEq

/-- A clip path as stored in the shared path store: its segments together
with its winding rule (true = even-odd), set by PsSpecialHandler::clip via
Path::setWindingRule. -/
structure CPath where
  segs : List PathSeg
  evenodd : Bool
deriving DecidableEq

/-- ClippingStack::Entry: a 1-based index into the shared path store
(0 = no clip), the save id (negative = pushed by an unnamed gsave), and the
clippath-loaded flag. -/
structure Entry where
  pathID : ℕ
  saveID : ℤ
  cpathLoaded : Bool
deriving DecidableEq

/-- The clipping stack: the entry stack (head = top) together with the shared
path store referenced 1-based by the pathID fields. -/
structure ClippingStack where
  stack : List Entry
  paths : List CPath
deriving DecidableEq

def emptyCS : ClippingStack := ⟨[], []⟩

/-- ClippingStack::dup: push a copy of the top entry (or Entry(0,-1) when the
stack is empty) and then set its save id. -/
def dupOp (saveID : ℤ) (s : List Entry) : List Entry :=
  let e := match s with
    | [] => (⟨0, -1, false⟩ : Entry)
    | e :: _ => e
  { e with saveID := saveID } :: s

/-- PsSpecialHandler::gsave: duplicate the top entry with an unnamed save id. -/
def gsaveOp (s : List Entry) : List Entry := dupOp (-1) s

/-- PsSpecialHandler::save: duplicate the top entry tagged with the given id. -/
def saveOp (id : ℤ) (s : List Entry) : List Entry := dupOp id s

/-- ClippingStack::pop(saveID, grestoreall): for saveID below zero pop the top
entry if it was pushed by gsave (and with grestoreall keep popping unnamed
entries); for saveID at least zero pop entries until the top save id equals
saveID, then pop that entry as well. -/
def popOp (saveID : ℤ) (grestoreall : Bool) (s : List Entry) : List Entry :=
  match s with
  | [] => []
  | e :: rest =>
    if saveID < 0 then
      let s1 := if e.saveID < 0 then rest else e :: rest
      if grestoreall then s1.dropWhile (fun x => decide (x.saveID < 0)) else s1
    else
      match (e :: rest).dropWhile (fun x => decide (x.saveID ≠ saveID)) with
      | [] => []
      | _ :: r => r

/-- PsSpecialHandler::grestore. -/
def grestoreOp (s : List Entry) : List Entry := popOp (-1) false s

/-- PsSpecialHandler::restore: pop with the named save id. -/
def restoreOp (id : ℤ) (s : List Entry) : List Entry := popOp id false s

/-- ClippingStack::pushEmptyPath (operator initclip): push Entry(0,-1), but
only when the stack is not empty. -/
def pushEmptyPath (s : List Entry) : List Entry :=
  match s with
  | [] => []
  | e :: rest => (⟨0, -1, false⟩ : Entry) :: e :: rest

/-- An unnamed graphics-state operation intervening between save and restore. -/
inductive GOp
  | gsave
  | grestore
deriving DecidableEq

/-- Apply a sequence of unnamed gsave and grestore operations, first element
first. -/
def applyGOps : List GOp → List Entry → List Entry
  | [], s => s
  | GOp.gsave :: rest, s => applyGOps rest (gsaveOp s)
  | GOp.grestore :: rest, s => applyGOps rest (grestoreOp s)

lemma applyGOps_unnamed_region (id : ℤ) (hid : 0 ≤ id) (e : Entry)
    (he : e.saveID = id) :
    ∀ (ops : List GOp) (junk s : List Entry),
      (∀ x ∈ junk, x.saveID < 0) →
      ∃ junk', (∀ x ∈ junk', x.saveID < 0) ∧
        applyGOps ops (junk ++ e :: s) = junk' ++ e :: s := by
  intro ops
  induction ops with
  | nil =>
    intro junk s hj
    exact ⟨junk, hj, rfl⟩
  | cons op rest ih =>
    intro junk s hj
    cases op with
    | gsave =>
      have htop : ∃ t, gsaveOp (junk ++ e :: s) = t :: (junk ++ e :: s) ∧ t.saveID = -1 := by
        cases junk with
        | nil => exact ⟨_, rfl, rfl⟩
        | cons j js => exact ⟨_, rfl, rfl⟩
      obtain ⟨t, ht, htneg⟩ := htop
      have : applyGOps (GOp.gsave :: rest) (junk ++ e :: s)
          = applyGOps rest ((t :: junk) ++ e :: s) := by
        simp [applyGOps, ht]
      rw [this]
      refine ih (t :: junk) s ?_
      intro x hx
      rcases List.mem_cons.mp hx with h | h
      · subst h; simp [htneg]
      · exact hj x h
    | grestore =>
      cases junk with
      | nil =>
        have hne : ¬ e.saveID < 0 := by omega
        have hg : grestoreOp (e :: s) = e :: s := by
          simp [grestoreOp, popOp, hne]
        have happ : applyGOps (GOp.grestore :: rest) (([] : List Entry) ++ e :: s)
            = applyGOps rest (([] : List Entry) ++ e :: s) := by
          simp only [List.nil_append, applyGOps]
          rw [hg]
        rw [happ]
        exact ih [] s (by intro x hx; simp at hx)
      | cons j js =>
        have hjneg : j.saveID < 0 := hj j (List.mem_cons_self j js)
        have hg : grestoreOp (j :: (js ++ e :: s)) = js ++ e :: s := by
          simp [grestoreOp, popOp, hjneg]
        have happ : applyGOps (GOp.grestore :: rest) ((j :: js) ++ e :: s)
            = applyGOps rest (js ++ e :: s) := by
          simp only [List.cons_append, applyGOps]
          rw [hg]
        rw [happ]
        exact ih js s (fun x hx => hj x (List.mem_cons_of_mem j hx))

lemma popOp_named_eq_tail (id : ℤ) (hid : ¬ id < 0) (s : List Entry) :
    popOp id false s = (s.dropWhile (fun x => decide (x.saveID ≠ id))).tail := by
  cases s with
  | nil => rfl
  | cons e rest =>
    simp only [popOp, if_neg hid]
    generalize (e :: rest).dropWhile (fun x => decide (x.saveID ≠ id)) = t
    cases t with
    | nil => rfl
    | cons a r => rfl

lemma dropWhile_unnamed_junk (id : ℤ) (hid : 0 ≤ id) (e : Entry)
    (he : e.saveID = id) (junk s : List Entry)
    (hj : ∀ x ∈ junk, x.saveID < 0) :
    (junk ++ e :: s).dropWhile (fun x => decide (x.saveID ≠ id)) = e :: s := by
  induction junk with
  | nil =>
    have hcond : ¬ ((fun x : Entry => decide (x.saveID ≠ id)) e = true) := by
      simp [he]
    rw [List.nil_append, List.dropWhile_cons, if_neg hcond]
  | cons j js ihj =>
    have hjneg : j.saveID < 0 := hj j (List.mem_cons_self j js)
    have hne : j.saveID ≠ id := by omega
    have hcond : (fun x : Entry => decide (x.saveID ≠ id)) j = true := by
      simp [hne]
    rw [List.cons_append, List.dropWhile_cons, if_pos hcond]
    exact ihj (fun x hx => hj x (List.mem_cons_of_mem j hx))

lemma restore_drops_region (id : ℤ) (hid : 0 ≤ id) (e : Entry)
    (he : e.saveID = id) (junk s : List Entry)
    (hj : ∀ x ∈ junk, x.saveID < 0) :
    restoreOp id (junk ++ e :: s) = s := by
  unfold restoreOp
  rw [popOp_named_eq_tail id (by omega),
    dropWhile_unnamed_junk id hid e he junk s hj]
  rfl

/-- C3: save(id) followed by any sequence of unnamed gsave and grestore
operations and then restore(id) removes exactly the entries pushed since the
save, restoring the stack to its state just before the save (for a named,
i.e. nonnegative, save id). -/
theorem save_restore_balanced (s : List Entry) (id : ℤ) (ops : List GOp)
    (hid : 0 ≤ id) :
    restoreOp id (applyGOps ops (saveOp id s)) = s := by
  have hsave : ∃ e : Entry, saveOp id s = e :: s ∧ e.saveID = id := by
    cases s with
    | nil => exact ⟨_, rfl, rfl⟩
    | cons e rest => exact ⟨_, rfl, rfl⟩
  obtain ⟨e, hs, he⟩ := hsave
  rw [hs]
  obtain ⟨junk', hj', happ⟩ :=
    applyGOps_unnamed_region id hid e he ops [] s (by intro x hx; simp at hx)
  simp only [List.nil_append] at happ
  rw [happ]
  exact restore_drops_region id hid e he junk' s hj'

/-- Witness for C3 at a concrete input. -/
theorem save_restore_balanced_witness :
    restoreOp 2 (applyGOps [GOp.gsave, GOp.gsave, GOp.grestore, GOp.gsave]
      (saveOp 2 [⟨1, -1, false⟩, ⟨0, 7, true⟩])) = [⟨1, -1, false⟩, ⟨0, 7, true⟩] :=
  save_restore_balanced [⟨1, -1, false⟩, ⟨0, 7, true⟩] 2
    [GOp.gsave, GOp.gsave, GOp.grestore, GOp.gsave] (by norm_num)

/-- C9: restore(id) on a stack none of whose entries is tagged with id pops
every entry, leaving the clipping stack empty. -/
theorem restore_unmatched_empties_stack (s : List Entry) (id : ℤ)
    (hid : 0 ≤ id) (hnone : ∀ e ∈ s, e.saveID ≠ id) :
    restoreOp id s = [] := by
  have hdrop : s.dropWhile (fun x => decide (x.saveID ≠ id)) = [] := by
    apply List.dropWhile_eq_nil_iff.mpr
    intro x hx
    simp [hnone x hx]
  unfold restoreOp
  rw [popOp_named_eq_tail id (by omega), hdrop]
  rfl

/-- Witness for C9 at a concrete input. -/
theorem restore_unmatched_empties_stack_witness :
    restoreOp 3 [⟨0, -1, false⟩, ⟨2, 5, false⟩, ⟨1, -1, true⟩] = [] :=
  restore_unmatched_empties_stack [⟨0, -1, false⟩, ⟨2, 5, false⟩, ⟨1, -1, true⟩] 3
    (by norm_num) (by decide)

/-- ClippingStack::top: the path referenced by the top entry, or none when the
stack is empty or the top entry has pathID 0. -/
def topPath (cs : ClippingStack) : Option CPath :=
  match cs.stack with
  | [] => none
  | e :: _ => if e.pathID = 0 then none else cs.paths[e.pathID - 1]?

/-- Modelled from the spec: ClippingStack::topID (declared in the header file
PsSpecialHandler.h, which is not part of this source file) returns the pathID
of the top entry, or 0 when the stack is empty. -/
def topID (cs : ClippingStack) : ℕ :=
  match cs.stack with
  | [] => 0
  | e :: _ => e.pathID

/-- ClippingStack::clippathLoaded: true when the stack is nonempty and the
top entry carries the clippath-loaded flag. -/
def csClippathLoaded (cs : ClippingStack) : Bool :=
  match cs.stack with
  | [] => false
  | e :: _ => e.cpathLoaded

/-- Counterexample to C7: on a concrete nonempty stack, initclip
(ClippingStack::pushEmptyPath) pushes the entry Entry(0,-1), whose pathID is
0 - exactly the encoding of the no-clip state, not distinct from it: the
effective clip of the new top entry is none.  Moreover, on an empty stack it
pushes nothing at all. -/
theorem initclip_pushes_noclip_encoding :
    (pushEmptyPath [⟨1, -1, false⟩]).head? = some ⟨0, -1, false⟩ ∧
    topPath ⟨pushEmptyPath [⟨1, -1, false⟩], [⟨[PathSeg.closepath], false⟩]⟩ = none ∧
    pushEmptyPath ([] : List Entry) = [] := by
  decide

/-- C7 amended: when the clipping stack is nonempty, initclip pushes a new
unnamed entry with pathID 0, which is the same encoding as the no-clip state
(the effective clip of the new top entry is none); when the stack is empty,
initclip pushes nothing. -/
theorem initclip_amended (s : List Entry) (paths : List CPath) :
    (s ≠ [] → pushEmptyPath s = (⟨0, -1, false⟩ : Entry) :: s ∧
      topPath ⟨pushEmptyPath s, paths⟩ = none) ∧
    pushEmptyPath ([] : List Entry) = [] := by
  refine ⟨?_, rfl⟩
  intro hne
  cases s with
  | nil => exact absurd rfl hne
  | cons e rest => exact ⟨rfl, rfl⟩

/-- Witness for C7 amended at a concrete input. -/
theorem initclip_amended_witness :
    pushEmptyPath [(⟨2, 4, true⟩ : Entry)] = [⟨0, -1, false⟩, ⟨2, 4, true⟩] ∧
    topPath ⟨pushEmptyPath [(⟨2, 4, true⟩ : Entry)], []⟩ = none :=
  (initclip_amended [⟨2, 4, true⟩] []).1 (by decide)

/-! ## The stroke operator -/

/-- An RGB color (the Color class, converted values in the unit interval). -/
structure Color where
  r : ℚ
  g : ℚ
  b : ℚ
deriving DecidableEq

def Color.black : Color := ⟨0, 0, 0⟩

/-- The stroke-related part of the graphics state owned by the handler:
line width, cap style (0 butt, 1 round, 2 square), join style (0 miter,
1 round, 2 bevel), miter limit, opacity, dash pattern and dash offset. -/
structure GState where
  linewidth : ℚ
  linecap : ℤ
  linejoin : ℤ
  miterlimit : ℚ
  opacityalpha : ℚ
  dashpattern : List ℚ
  dashoffset : ℚ
deriving DecidableEq

/-- The value of an emitted stroke-linecap or stroke-linejoin attribute. -/
inductive AttrVal
  | round
  | square
  | bevel
deriving DecidableEq

/-- Apply the affine map of a matrix to a point. -/
def applyPt (M : Matrix3) (x y : ℚ) : ℚ × ℚ :=
  (M.a11*x + M.a12*y + M.a13, M.a21*x + M.a22*y + M.a23)

/-- GraphicsPath::transform: map every coordinate pair of the path through
the matrix. -/
def transformPath (M : Matrix3) : List PathSeg → List PathSeg :=
  List.map fun s =>
    match s with
    | PathSeg.moveto x y => PathSeg.moveto (applyPt M x y).1 (applyPt M x y).2
    | PathSeg.lineto x y => PathSeg.lineto (applyPt M x y).1 (applyPt M x y).2
    | PathSeg.cubicto x1 y1 x2 y2 x3 y3 =>
        PathSeg.cubicto (applyPt M x1 y1).1 (applyPt M x1 y1).2
          (applyPt M x2 y2).1 (applyPt M x2 y2).2
          (applyPt M x3 y3).1 (applyPt M x3 y3).2
    | PathSeg.closepath => PathSeg.closepath

/-- Modelled from the spec: GraphicsPath::removeRedundantCommands (declared
in GraphicsPath.h, which is not part of this source file) removes redundant
no-op segments; a path consisting of a single moveto defines the degenerate
dot case and a path of pairwise distinct drawing segments contains nothing
redundant, so on the paths considered here the removal is the identity. -/
def removeRedundantCommands (p : List PathSeg) : List PathSeg := p

/-- Modelled from the spec: GraphicsPath::isDot (declared in GraphicsPath.h,
which is not part of this source file) detects a degenerate path consisting
of a single point, i.e. a single moveto with no further segments, and yields
that point. -/
def isDot : List PathSeg → Option (ℚ × ℚ)
  | [PathSeg.moveto x y] => some (x, y)
  | _ => none

/-- The element emitted by PsSpecialHandler::stroke: either a filled circle
(the degenerate dot case) or a path element with its stroke attributes, each
attribute present only when it differs from its default. -/
inductive StrokeElem
  | circle (cx cy radius : ℚ) (fill : Color) (clipRef : Option ℕ)
  | pathElem (segs : List PathSeg) (strokeColor : Color)
      (width : Option ℚ) (miterlimit : Option ℚ)
      (linecap : Option AttrVal) (linejoin : Option AttrVal)
      (opacity : Option ℚ) (dasharray : Option (List ℚ))
      (dashoffset : Option ℚ) (clipRef : Option ℕ)
deriving DecidableEq

/-- Attach the clip-path reference to an emitted element. -/
def StrokeElem.withClipRef (e : StrokeElem) (id : ℕ) : StrokeElem :=
  match e with
  | StrokeElem.circle cx cy radius fill _ => StrokeElem.circle cx cy radius fill (some id)
  | StrokeElem.pathElem segs c w m lc lj o da dof _ =>
      StrokeElem.pathElem segs c w m lc lj o da dof (some id)

/-- PsSpecialHandler::stroke: returns the element appended to the output, or
none when nothing is emitted.  The path is first stripped of redundant
commands; an empty path with no loaded clip path emits nothing.  The path is
transformed by the CTM unless that is the identity, the loaded clip path is
prepended if flagged, and a degenerate single-point path emits a filled
circle of radius half the line width exactly for the round cap style.
Otherwise a path element is emitted whose stroke attributes appear only when
they differ from their defaults; note that the source selects the value of
the stroke-linejoin attribute by testing the line cap, not the line join. -/
def strokeOp (g : GState) (col : Color) (ctm : Matrix3) (cs : ClippingStack)
    (path : List PathSeg) : Option StrokeElem :=
  let p0 := removeRedundantCommands path
  if p0.isEmpty && !csClippathLoaded cs then none
  else
    let p1 := if ctm = idMatrix3 then p0 else transformPath ctm p0
    let p2 := if csClippathLoaded cs then
        match topPath cs with
        | some c => c.segs ++ p1
        | none => p1
      else p1
    let elem : Option StrokeElem :=
      match isDot p2 with
      | some (x, y) =>
        if g.linecap = 1 then
          some (StrokeElem.circle x y (g.linewidth / 2) col none)
        else
          none
      | none =>
        some (StrokeElem.pathElem p2 col
          (if g.linewidth ≠ 1 then some g.linewidth else none)
          (if g.miterlimit ≠ 4 then some g.miterlimit else none)
          (if 0 < g.linecap then
            some (if g.linecap = 1 then AttrVal.round else AttrVal.square) else none)
          (if 0 < g.linejoin then
            some (if g.linecap = 1 then AttrVal.round else AttrVal.bevel) else none)
          (if g.opacityalpha < 1 then some g.opacityalpha else none)
          (if ¬ g.dashpattern.isEmpty then some g.dashpattern else none)
          (if ¬ g.dashpattern.isEmpty ∧ g.dashoffset ≠ 0 then some g.dashoffset else none)
          none)
    match elem, topPath cs with
    | some e, some _ => some (e.withClipRef (topID cs))
    | _, _ => elem

/-- C5: stroking a path consisting of a single moveto emits a filled circle
of radius half the line width centered at that point when the cap style is
round (1), and emits nothing at all when the cap style is butt (0) or
square (2). -/
theorem stroke_single_moveto_dot (x y lw ml op dof : ℚ) (lj : ℤ)
    (dp : List ℚ) (col : Color) :
    strokeOp ⟨lw, 1, lj, ml, op, dp, dof⟩ col idMatrix3 emptyCS [PathSeg.moveto x y]
      = some (StrokeElem.circle x y (lw / 2) col none) ∧
    strokeOp ⟨lw, 0, lj, ml, op, dp, dof⟩ col idMatrix3 emptyCS [PathSeg.moveto x y]
      = none ∧
    strokeOp ⟨lw, 2, lj, ml, op, dp, dof⟩ col idMatrix3 emptyCS [PathSeg.moveto x y]
      = none :=
  ⟨rfl, rfl, rfl⟩

/-- C6 failing input: with join style round (1) and cap style butt (0), the
stroked path element carries the stroke-linejoin value bevel, because the
source selects the attribute value from the line cap instead of the line
join. -/
theorem stroke_linejoin_uses_linecap :
    strokeOp ⟨1, 0, 1, 4, 1, [], 0⟩ Color.black idMatrix3 emptyCS
        [PathSeg.moveto 0 0, PathSeg.lineto 1 0]
      = some (StrokeElem.pathElem [PathSeg.moveto 0 0, PathSeg.lineto 1 0]
          Color.black none none none (some AttrVal.bevel) none none none none) := by
  rfl

/-! ## Patterns (makepattern / setpattern / fill) -/

/-- The kinds of pattern that makepattern registers (pattern type 1 with
paint type 1 or 2; pattern type 2 registers nothing). -/
inductive PatKind
  | coloredTiling
  | uncoloredTiling
deriving DecidableEq

/-- Lookup in the registered pattern table (std::map keyed by pattern id). -/
def findPattern : List (ℤ × PatKind) → ℤ → Option PatKind
  | [], _ => none
  | (k, v) :: rest, id => if k = id then some v else findPattern rest id

/-- PsSpecialHandler::setpattern: the resulting active pattern.  An id not
present in the table clears the active pattern; a registered tiling pattern
(the only kind that makepattern stores) becomes the active pattern. -/
def setpatternOp (pats : List (ℤ × PatKind)) (id : ℤ) : Option ℤ :=
  match findPattern pats id with
  | none => none
  | some PatKind.coloredTiling => some id
  | some PatKind.uncoloredTiling => some id

/-- The paint of a filled element: a reference to a pattern, an explicit
color, or the implicit current color (no fill attribute emitted). -/
inductive FillPaint
  | patternRef (id : ℤ)
  | rgb (c : Color)
  | current
deriving DecidableEq

/-- The fill paint chosen by PsSpecialHandler::fill: the active pattern if
one is set, else the current color (written explicitly only when it is not
black or output is redirected into a pattern container). -/
def fillPaint (pattern : Option ℤ) (col : Color) (savenode : Bool) : FillPaint :=
  match pattern with
  | some id => FillPaint.patternRef id
  | none => if col ≠ Color.black ∨ savenode then FillPaint.rgb col else FillPaint.current

/-- C8: setpattern with an id that was never registered clears the active
pattern (without signalling an error: the operation is total), and every
subsequent fill paints with the current solid color, never with a pattern
reference. -/
theorem setpattern_unknown_clears (pats : List (ℤ × PatKind)) (id : ℤ)
    (col : Color) (savenode : Bool) (h : findPattern pats id = none) :
    setpatternOp pats id = none ∧
    ∀ pid, fillPaint (setpatternOp pats id) col savenode ≠ FillPaint.patternRef pid := by
  have hset : setpatternOp pats id = none := by
    unfold setpatternOp
    rw [h]
  refine ⟨hset, ?_⟩
  intro pid
  rw [hset]
  unfold fillPaint
  split
  · simp_all
  · split <;> simp

/-- Witness for C8 at a concrete input. -/
theorem setpattern_unknown_clears_witness :
    setpatternOp [(1, PatKind.coloredTiling)] 2 = none ∧
    ∀ pid, fillPaint (setpatternOp [(1, PatKind.coloredTiling)] 2) ⟨1, 0, 0⟩ false
      ≠ FillPaint.patternRef pid :=
  setpattern_unknown_clears [(1, PatKind.coloredTiling)] 2 ⟨1, 0, 0⟩ false (by decide)

/-! ## The shfill operator -/

/-- Truncation toward zero, the behavior of the C++ cast from double to int. -/
def toInt (q : ℚ) : ℤ := if q < 0 then -⌊-q⌋ else ⌊q⌋

/-- The C++ cast from double to bool: nonzero means true. -/
def nonzeroBool (q : ℚ) : Bool := decide (q ≠ 0)

/-- Number of color components of the color space selected by the second
shfill operand: 1 gray, 4 cmyk, and RGB (3 components) for 3 as well as for
any other value (the switch leaves the initial RGB color space unchanged). -/
def colorComps (q : ℚ) : ℕ :=
  if toInt q = 1 then 1 else if toInt q = 4 then 4 else 3

/-- Number of operands of one patch record after its edge flag, as consumed
by read_patch_data.  The point and color counts per shading type and edge
flag are those of ShadingPatch::numPoints/numColors (TriangularPatch.cpp and
TensorProductPatch.cpp, which are not part of this source file), modelled
from the spec: type 4 records interleave an extra per-vertex edge flag with 3
vertices (1 when continuing), type 6 has 12 points and 4 colors (8 and 2 when
continuing), type 7 has 16 points and 4 colors (12 and 2 when continuing). -/
def patchDataLen (ty : ℤ) (comps : ℕ) (ef : ℤ) : ℕ :=
  if ty = 4 then
    if ef = 0 then 3 * (2 + comps) + 2 else 2 + comps
  else if ty = 6 then
    if ef = 0 then 2 * 12 + 4 * comps else 2 * 8 + 2 * comps
  else
    if ef = 0 then 2 * 16 + 4 * comps else 2 * 12 + 2 * comps

/-- Outcome of processing the patch records of one mesh: completed, stopped
on truncated data (IteratorException), or stopped on invalid patch data
(ShadingException); the latter two produce a PostScript error diagnostic. -/
inductive MeshOutcome
  | ok
  | truncated
  | shadingErr
deriving DecidableEq

/-- PsSpecialHandler::processSequentialPatchMesh: repeatedly read an edge
flag and one patch record while operands remain, emitting one segment group
per complete patch.  An unknown shading type (ShadingPatch::create) or a
continuation flag without a preceding patch stops with a shading error; a
record extending past the end of the operand list stops with truncation, so
the partial record emits nothing.  The fuel argument bounds the number of
loop iterations; every iteration consumes at least one operand, so one more
than the operand count is always enough. -/
def runSeqF : ℕ → ℤ → ℕ → List ℚ → ℕ → Bool → List (List ℚ) × MeshOutcome
  | 0, _, _, _, _, _ => ([], MeshOutcome.ok)
  | fuel+1, ty, comps, ops, pos, havePrev =>
    if pos < ops.length then
      let ef := toInt (ops[pos]?.getD 0)
      if ty ≠ 4 ∧ ty ≠ 6 ∧ ty ≠ 7 then ([], MeshOutcome.shadingErr)
      else if ef ≠ 0 ∧ havePrev = false then ([], MeshOutcome.shadingErr)
      else
        let n := patchDataLen ty comps ef
        if pos + 1 + n ≤ ops.length then
          let seg := (ops.drop (pos+1)).take n
          let r := runSeqF fuel ty comps ops (pos+1+n) true
          (seg :: r.1, r.2)
        else ([], MeshOutcome.truncated)
    else ([], MeshOutcome.ok)

/-- The two triangles built from a quad cell of two adjacent lattice rows
(vertices i and i+1 of each row), each a flat list of vertex records. -/
def cellTris (comps : ℕ) (r1 r2 : List ℚ) (i : ℕ) : List (List ℚ) :=
  let w := 2 + comps
  let v1 := (r1.drop (i * w)).take w
  let v2 := (r1.drop ((i+1) * w)).take w
  let v3 := (r2.drop (i * w)).take w
  let v4 := (r2.drop ((i+1) * w)).take w
  [v1 ++ v2 ++ v3, v2 ++ v3 ++ v4]

/-- All triangles between two adjacent rows of a lattice mesh. -/
def rowTris (comps nverts : ℕ) (r1 r2 : List ℚ) : List (List ℚ) :=
  ((List.range (nverts - 1)).map (cellTris comps r1 r2)).flatten

/-- Row loop of PsSpecialHandler::processLatticeTriangularPatchMesh: while
operands remain, read one full row of vertices and emit the triangles
between the previous row and it; a row extending past the end of the
operands stops with truncation and emits no triangle of that row. -/
def runLatRowsF : ℕ → ℕ → ℕ → List ℚ → ℕ → List ℚ → List (List ℚ) × MeshOutcome
  | 0, _, _, _, _, _ => ([], MeshOutcome.ok)
  | fuel+1, comps, nverts, ops, pos, prevRow =>
    if pos < ops.length then
      let rowLen := nverts * (2 + comps)
      if pos + rowLen ≤ ops.length then
        let row := (ops.drop pos).take rowLen
        let r := runLatRowsF fuel comps nverts ops (pos + rowLen) row
        (rowTris comps nverts prevRow row ++ r.1, r.2)
      else ([], MeshOutcome.truncated)
    else ([], MeshOutcome.ok)

/-- PsSpecialHandler::processLatticeTriangularPatchMesh: read the number of
vertices per row (truncation when the operands are exhausted), return
silently when it is below 2, read the first row, then process the remaining
rows. -/
def runLat (comps : ℕ) (ops : List ℚ) (pos : ℕ) : List (List ℚ) × MeshOutcome :=
  match ops[pos]? with
  | none => ([], MeshOutcome.truncated)
  | some q =>
    let n := toInt q
    if n < 2 then ([], MeshOutcome.ok)
    else
      let nverts := n.toNat
      let rowLen := nverts * (2 + comps)
      if pos + 1 + rowLen ≤ ops.length then
        runLatRowsF (ops.length + 1) comps nverts ops (pos + 1 + rowLen)
          ((ops.drop (pos + 1)).take rowLen)
      else ([], MeshOutcome.truncated)

/-- Dispatch of shfill on the shading type: type 5 is the lattice mesh, all
other types go to the sequential patch-mesh loop. -/
def runMesh (ty : ℤ) (comps : ℕ) (ops : List ℚ) (pos : ℕ) : List (List ℚ) × MeshOutcome :=
  if ty = 5 then runLat comps ops pos
  else runSeqF (ops.length + 1) ty comps ops pos false

/-- Whether a mesh outcome produced a PostScript error diagnostic
(Message::estream in the two catch blocks of shfill). -/
def diagOf : MeshOutcome → Bool
  | MeshOutcome.ok => false
  | MeshOutcome.truncated => true
  | MeshOutcome.shadingErr => true

/-- Initial value of the static flag COMPUTE_CLIPPATHS_INTERSECTIONS (line 55
of the source file); it is changed only by code outside this file. -/
def COMPUTE_CLIPPATHS_INTERSECTIONS : Bool := false

/-- ClippingStack::push: an empty path pushes Entry(0,saveID), otherwise the
path is appended to the shared store and the new entry references it. -/
def csPush (p : CPath) (saveID : ℤ) (cs : ClippingStack) : ClippingStack :=
  if p.segs.isEmpty then ⟨(⟨0, saveID, false⟩ : Entry) :: cs.stack, cs.paths⟩
  else ⟨(⟨cs.paths.length + 1, saveID, false⟩ : Entry) :: cs.stack, cs.paths ++ [p]⟩

/-- ClippingStack::replace: push the path with an unnamed id when the stack
is empty, otherwise append the path to the store and redirect the pathID of
the top entry to it. -/
def csReplace (p : CPath) (cs : ClippingStack) : ClippingStack :=
  match cs.stack with
  | [] => csPush p (-1) cs
  | e :: rest => ⟨{ e with pathID := cs.paths.length + 1 } :: rest, cs.paths ++ [p]⟩

/-- ClippingStack::pop() as called at the end of shfill (grestore
semantics): drop the top entry exactly when it is unnamed. -/
def csPop (cs : ClippingStack) : ClippingStack :=
  { cs with stack := popOp (-1) false cs.stack }

/-- PsSpecialHandler::clip(Path,bool): the effect on the clipping stack and
the number of clipPath elements appended to the defs section.  An empty path
changes nothing.  Otherwise the path receives the winding rule, is mapped
through the CTM unless that is the identity, and replaces the top stack
entry.  Since COMPUTE_CLIPPATHS_INTERSECTIONS has its initial value false in
this source file, the chained mode applies; the exact-intersection branch
performs the same stack replacement with the intersected path. -/
def clipOp (segs : List PathSeg) (evenodd : Bool) (ctm : Matrix3)
    (cs : ClippingStack) : ClippingStack × ℕ :=
  if segs.isEmpty then (cs, 0)
  else
    let segs1 := if ctm = idMatrix3 then segs else transformPath ctm segs
    (csReplace ⟨segs1, evenodd⟩ cs, 1)

/-- The clip rectangle path built by shfill from the four bbox operands. -/
def bboxSegs (x1 y1 x2 y2 : ℚ) : List PathSeg :=
  [PathSeg.moveto x1 y1, PathSeg.lineto x2 y1, PathSeg.lineto x2 y2,
   PathSeg.lineto x1 y2, PathSeg.closepath]

/-- Reading of the shfill header after shading type and color space: the
background-color flag and components, then the bbox flag and rectangle.
Returns the position of the first patch record and the rectangle if present,
or none when the operand list ends inside the header: those reads happen
before the try block of shfill, so the IteratorException escapes the
function (the VectorIterator bound checks are modelled from the spec). -/
def headerRead (params : List ℚ) : Option (ℕ × Option (ℚ × ℚ × ℚ × ℚ)) :=
  let comps := colorComps (params[1]?.getD 0)
  let bgGiven := nonzeroBool (params[2]?.getD 0)
  if bgGiven ∧ params.length < 3 + comps then none
  else
    let bpos := if bgGiven then 3 + comps else 3
    if bpos < params.length then
      if nonzeroBool (params[bpos]?.getD 0) then
        if bpos + 5 ≤ params.length then
          some (bpos + 5, some (params[bpos+1]?.getD 0, params[bpos+2]?.getD 0,
                                params[bpos+3]?.getD 0, params[bpos+4]?.getD 0))
        else none
      else some (bpos + 1, none)
    else none

/-- The observable result of one shfill call: the emitted segment groups,
the number of clipPath elements appended to the defs, the final clipping
stack, whether a PostScript error diagnostic was printed, and whether an
exception escaped the function uncaught. -/
structure ShfillResult where
  out : List (List ℚ)
  defsCount : ℕ
  cs : ClippingStack
  diag : Bool
  err : Bool
deriving DecidableEq

/-- PsSpecialHandler::shfill: fewer than 9 operands return immediately; the
header is read outside the try block, so running out of operands there
escapes the function; with a bbox present the rectangle is applied through
clip() before the mesh is processed and the top stack entry is popped (with
grestore semantics) afterwards; mesh truncation and invalid patch data are
caught and reported as diagnostics, leaving the already emitted groups in
the output. -/
def shfill (params : List ℚ) (cs : ClippingStack) (ctm : Matrix3) : ShfillResult :=
  if params.length < 9 then ⟨[], 0, cs, false, false⟩
  else
    let ty := toInt (params[0]?.getD 0)
    let comps := colorComps (params[1]?.getD 0)
    match headerRead params with
    | none => ⟨[], 0, cs, false, true⟩
    | some (pos, none) =>
        let r := runMesh ty comps params pos
        ⟨r.1, 0, cs, diagOf r.2, false⟩
    | some (pos, some (x1, y1, x2, y2)) =>
        let c := clipOp (bboxSegs x1 y1 x2 y2) false ctm cs
        let r := runMesh ty comps params pos
        ⟨r.1, c.2, csPop c.1, diagOf r.2, false⟩

/-- C10: an operand list of fewer than 9 numbers makes shfill return
immediately: no output element, unchanged clipping stack, no diagnostic and
no escaping error. -/
theorem shfill_short_params_noop (params : List ℚ) (cs : ClippingStack)
    (ctm : Matrix3) (h : params.length < 9) :
    shfill params cs ctm = ⟨[], 0, cs, false, false⟩ := by
  unfold shfill
  rw [if_pos h]

/-- Witness for C10 at a concrete input. -/
theorem shfill_short_params_noop_witness :
    ([(6:ℚ), 7, 1, 0, 0] : List ℚ).length < 9 ∧
    shfill [(6:ℚ), 7, 1, 0, 0] emptyCS idMatrix3 = ⟨[], 0, emptyCS, false, false⟩ :=
  ⟨by decide, shfill_short_params_noop [(6:ℚ), 7, 1, 0, 0] emptyCS idMatrix3 (by decide)⟩

/-- A concrete clip path installed before the shfill call of the C4
counterexample. -/
def demoClip : CPath :=
  ⟨[PathSeg.moveto 0 0, PathSeg.lineto 1 0, PathSeg.lineto 1 1, PathSeg.closepath], false⟩

/-- Counterexample to C4: on the concrete pre-call stack holding one unnamed
entry with an active clip path, an shfill call with bbox flag 1 (and an
empty, cleanly ending mesh) leaves an empty clip stack: the depth drops from
1 to 0 and the top clip path changes from the installed path to none, so the
stack is not restored to its pre-call state. -/
theorem shfill_bbox_not_restored :
    (shfill [6, 1, 1, 1/2, 1, 0, 0, 4, 4]
        ⟨[⟨1, -1, false⟩], [demoClip]⟩ idMatrix3).cs.stack = [] ∧
    topPath ⟨[⟨1, -1, false⟩], [demoClip]⟩ = some demoClip ∧
    topPath (shfill [6, 1, 1, 1/2, 1, 0, 0, 4, 4]
        ⟨[⟨1, -1, false⟩], [demoClip]⟩ idMatrix3).cs = none ∧
    (shfill [6, 1, 1, 1/2, 1, 0, 0, 4, 4]
        ⟨[⟨1, -1, false⟩], [demoClip]⟩ idMatrix3).diag = false := by
  decide

/-- C4 amended: shfill with bbox flag 1 does not push a separate temporary
entry; it overwrites the clip path of the top entry through clip() and
afterwards pops with grestore semantics.  Hence the pre-call stack is
restored only when it was empty; an unnamed top entry is removed entirely,
and a named top entry survives carrying the bbox rectangle as its clip. -/
theorem shfill_bbox_overwrites_top (params : List ℚ) (cs : ClippingStack)
    (ctm : Matrix3) (pos : ℕ) (x1 y1 x2 y2 : ℚ)
    (hlen : ¬ params.length < 9)
    (hhdr : headerRead params = some (pos, some (x1, y1, x2, y2))) :
    (cs.stack = [] → (shfill params cs ctm).cs.stack = []) ∧
    (∀ e rest, cs.stack = e :: rest → e.saveID < 0 →
        (shfill params cs ctm).cs.stack = rest) ∧
    (∀ e rest, cs.stack = e :: rest → ¬ e.saveID < 0 →
        (shfill params cs ctm).cs.stack =
          ({ e with pathID := cs.paths.length + 1 } : Entry) :: rest) := by
  simp only [shfill, if_neg hlen, hhdr]
  refine ⟨?_, ?_, ?_⟩
  · intro hnil
    by_cases hc : ctm = idMatrix3 <;>
      simp [clipOp, bboxSegs, csReplace, hnil, csPush, csPop, popOp, hc, transformPath]
  · intro e rest hcons hneg
    by_cases hc : ctm = idMatrix3 <;>
      simp [clipOp, bboxSegs, csReplace, hcons, csPush, csPop, popOp, hneg, hc, transformPath]
  · intro e rest hcons hneg
    by_cases hc : ctm = idMatrix3 <;>
      simp [clipOp, bboxSegs, csReplace, hcons, csPush, csPop, popOp, hneg, hc, transformPath]

/-- Witness for the amended C4 at a concrete input. -/
theorem shfill_bbox_overwrites_top_witness :
    (shfill [6, 1, 1, 1/2, 1, 0, 0, 4, 4]
        ⟨[⟨1, -1, false⟩], [demoClip]⟩ idMatrix3).cs.stack = [] :=
  (shfill_bbox_overwrites_top [6, 1, 1, 1/2, 1, 0, 0, 4, 4]
      ⟨[⟨1, -1, false⟩], [demoClip]⟩ idMatrix3 9 0 0 4 4
      (by decide) (by decide)).2.1 ⟨1, -1, false⟩ [] rfl (by decide)

lemma slice_append (ops ext : List ℚ) (k n : ℕ) (h : k + n ≤ ops.length) :
    ((ops ++ ext).drop k).take n = (ops.drop k).take n := by
  have hk : k ≤ ops.length := le_trans (Nat.le_add_right k n) h
  rw [List.drop_append_of_le_length hk]
  have hn : n ≤ (ops.drop k).length := by
    rw [List.length_drop]
    omega
  rw [List.take_append_of_le_length hn]

lemma colorComps_le (q : ℚ) : colorComps q ≤ 4 := by
  unfold colorComps
  split_ifs <;> omega

lemma runSeqF_out_append (ty : ℤ) (comps : ℕ) (ext : List ℚ) :
    ∀ (f1 f2 : ℕ) (ops : List ℚ) (pos : ℕ) (hp : Bool),
      ops.length < f1 + pos → (ops ++ ext).length < f2 + pos →
      ∃ t, (runSeqF f1 ty comps ops pos hp).1 ++ t
           = (runSeqF f2 ty comps (ops ++ ext) pos hp).1 := by
  intro f1
  induction f1 with
  | zero =>
    intro f2 ops pos hp h1 h2
    exact ⟨(runSeqF f2 ty comps (ops ++ ext) pos hp).1, by simp [runSeqF]⟩
  | succ f ih =>
    intro f2 ops pos hp h1 h2
    by_cases hpos : pos < ops.length
    case neg =>
      refine ⟨(runSeqF f2 ty comps (ops ++ ext) pos hp).1, ?_⟩
      simp [runSeqF, hpos]
    case pos =>
      have hpos2 : pos < (ops ++ ext).length := by
        rw [List.length_append]
        omega
      obtain ⟨f2p, rfl⟩ : ∃ g, f2 = g + 1 := by
        rw [List.length_append] at h2
        exact ⟨f2 - 1, by omega⟩
      have hef : (ops ++ ext)[pos]? = ops[pos]? :=
        List.getElem?_append_left hpos
      simp only [runSeqF, if_pos hpos, if_pos hpos2, hef]
      by_cases hty : ty ≠ 4 ∧ ty ≠ 6 ∧ ty ≠ 7
      · simp [hty]
      · simp only [if_neg hty]
        by_cases hpf : toInt (ops[pos]?.getD 0) ≠ 0 ∧ hp = false
        · simp [hpf]
        · simp only [if_neg hpf]
          by_cases hrec : pos + 1 + patchDataLen ty comps (toInt (ops[pos]?.getD 0)) ≤ ops.length
          · have hrec2 : pos + 1 + patchDataLen ty comps (toInt (ops[pos]?.getD 0))
                ≤ (ops ++ ext).length := by
              rw [List.length_append]
              omega
            simp only [if_pos hrec, if_pos hrec2]
            have hslice := slice_append ops ext (pos + 1)
              (patchDataLen ty comps (toInt (ops[pos]?.getD 0))) (by omega)
            obtain ⟨t, ht⟩ := ih (f2p) ops
              (pos + 1 + patchDataLen ty comps (toInt (ops[pos]?.getD 0))) true
              (by omega) (by rw [List.length_append] at h2 ⊢; omega)
            refine ⟨t, ?_⟩
            simp [hslice, ht]
          · simp [if_neg hrec]
  
lemma runLatRowsF_out_append (comps nverts : ℕ) (ext : List ℚ)
    (hrow : 0 < nverts * (2 + comps)) :
    ∀ (f1 f2 : ℕ) (ops : List ℚ) (pos : ℕ) (row : List ℚ),
      ops.length < f1 + pos → (ops ++ ext).length < f2 + pos →
      ∃ t, (runLatRowsF f1 comps nverts ops pos row).1 ++ t
           = (runLatRowsF f2 comps nverts (ops ++ ext) pos row).1 := by
  intro f1
  induction f1 with
  | zero =>
    intro f2 ops pos row h1 h2
    exact ⟨(runLatRowsF f2 comps nverts (ops ++ ext) pos row).1, by simp [runLatRowsF]⟩
  | succ f ih =>
    intro f2 ops pos row h1 h2
    by_cases hpos : pos < ops.length
    case neg =>
      refine ⟨(runLatRowsF f2 comps nverts (ops ++ ext) pos row).1, ?_⟩
      simp [runLatRowsF, hpos]
    case pos =>
      have hpos2 : pos < (ops ++ ext).length := by
        rw [List.length_append]
        omega
      obtain ⟨f2p, rfl⟩ : ∃ g, f2 = g + 1 := by
        rw [List.length_append] at h2
        exact ⟨f2 - 1, by omega⟩
      simp only [runLatRowsF, if_pos hpos, if_pos hpos2]
      by_cases hfit : pos + nverts * (2 + comps) ≤ ops.length
      · have hfit2 : pos + nverts * (2 + comps) ≤ (ops ++ ext).length := by
          rw [List.length_append]
          omega
        simp only [if_pos hfit, if_pos hfit2]
        have hslice := slice_append ops ext pos (nverts * (2 + comps)) (by omega)
        obtain ⟨t, ht⟩ := ih f2p ops (pos + nverts * (2 + comps))
          ((ops.drop pos).take (nverts * (2 + comps)))
          (by omega) (by rw [List.length_append] at h2 ⊢; omega)
        refine ⟨t, ?_⟩
        simp only [hslice]
        rw [List.append_assoc, ht]
      · simp [if_neg hfit]

lemma runLat_out_append (comps : ℕ) (ops ext : List ℚ) (pos : ℕ) :
    ∃ t, (runLat comps ops pos).1 ++ t = (runLat comps (ops ++ ext) pos).1 := by
  by_cases hpos : pos < ops.length
  case neg =>
    have hnone : ops[pos]? = none := by
      rw [List.getElem?_eq_none]
      omega
    refine ⟨(runLat comps (ops ++ ext) pos).1, ?_⟩
    simp [runLat, hnone]
  case pos =>
    obtain ⟨q, hq⟩ : ∃ q, ops[pos]? = some q := by
      cases hq : ops[pos]? with
      | none =>
        rw [List.getElem?_eq_none_iff] at hq
        omega
      | some q => exact ⟨q, rfl⟩
    have hq2 : (ops ++ ext)[pos]? = some q := by
      rw [List.getElem?_append_left hpos]
      exact hq
    simp only [runLat, hq, hq2]
    by_cases hn : toInt q < 2
    · simp [hn]
    · simp only [if_neg hn]
      by_cases hfit : pos + 1 + (toInt q).toNat * (2 + comps) ≤ ops.length
      · have hfit2 : pos + 1 + (toInt q).toNat * (2 + comps) ≤ (ops ++ ext).length := by
          rw [List.length_append]
          omega
        simp only [if_pos hfit, if_pos hfit2]
        have hslice := slice_append ops ext (pos + 1) ((toInt q).toNat * (2 + comps))
          (by omega)
        rw [hslice]
        have hrow : 0 < (toInt q).toNat * (2 + comps) := by
          have : (2:ℤ) ≤ toInt q := by omega
          have h2n : 2 ≤ (toInt q).toNat := by omega
          positivity
        exact runLatRowsF_out_append comps (toInt q).toNat ext hrow
          (ops.length + 1) ((ops ++ ext).length + 1) ops
          (pos + 1 + (toInt q).toNat * (2 + comps))
          ((ops.drop (pos + 1)).take ((toInt q).toNat * (2 + comps)))
          (by omega) (by rw [List.length_append]; omega)
      · simp [if_neg hfit]

lemma runMesh_out_append (ty : ℤ) (comps : ℕ) (ops ext : List ℚ) (pos : ℕ) :
    ∃ t, (runMesh ty comps ops pos).1 ++ t = (runMesh ty comps (ops ++ ext) pos).1 := by
  unfold runMesh
  by_cases h5 : ty = 5
  · simp only [if_pos h5]
    exact runLat_out_append comps ops ext pos
  · simp only [if_neg h5]
    exact runSeqF_out_append ty comps ext (ops.length + 1) ((ops ++ ext).length + 1)
      ops pos false (by omega) (by omega)

lemma headerRead_append (params ext : List ℚ) (v : ℕ × Option (ℚ × ℚ × ℚ × ℚ))
    (hlen : 9 ≤ params.length) (h : headerRead params = some v) :
    headerRead (params ++ ext) = some v := by
  have hc : colorComps (params[1]?.getD 0) ≤ 4 := colorComps_le _
  have hL : (params ++ ext).length = params.length + ext.length := List.length_append _ _
  have h1 : (params ++ ext)[1]? = params[1]? := List.getElem?_append_left (by omega)
  have h2 : (params ++ ext)[2]? = params[2]? := List.getElem?_append_left (by omega)
  unfold headerRead at h ⊢
  rw [h1, h2]
  by_cases hbg : nonzeroBool (params[2]?.getD 0) = true
  case pos =>
    have hno1 : ¬ (nonzeroBool (params[2]?.getD 0) = true ∧
        params.length < 3 + colorComps (params[1]?.getD 0)) := by
      intro hcontra
      omega
    have hno2 : ¬ (nonzeroBool (params[2]?.getD 0) = true ∧
        (params ++ ext).length < 3 + colorComps (params[1]?.getD 0)) := by
      intro hcontra
      omega
    rw [if_neg hno1] at h
    rw [if_neg hno2]
    simp only [if_pos hbg] at h ⊢
    have hbp : 3 + colorComps (params[1]?.getD 0) ≤ 7 := by omega
    have hlt1 : 3 + colorComps (params[1]?.getD 0) < params.length := by omega
    have hlt2 : 3 + colorComps (params[1]?.getD 0) < (params ++ ext).length := by omega
    rw [if_pos hlt1] at h
    rw [if_pos hlt2]
    have h3 : (params ++ ext)[3 + colorComps (params[1]?.getD 0)]?
        = params[3 + colorComps (params[1]?.getD 0)]? :=
      List.getElem?_append_left hlt1
    rw [h3]
    by_cases hbb : nonzeroBool (params[3 + colorComps (params[1]?.getD 0)]?.getD 0) = true
    case pos =>
      rw [if_pos hbb] at h
      rw [if_pos hbb]
      by_cases hco : 3 + colorComps (params[1]?.getD 0) + 5 ≤ params.length
      case pos =>
        rw [if_pos hco] at h
        rw [if_pos (show 3 + colorComps (params[1]?.getD 0) + 5 ≤ (params ++ ext).length
          by omega)]
        rw [List.getElem?_append_left (show 3 + colorComps (params[1]?.getD 0) + 1
              < params.length by omega),
            List.getElem?_append_left (show 3 + colorComps (params[1]?.getD 0) + 2
              < params.length by omega),
            List.getElem?_append_left (show 3 + colorComps (params[1]?.getD 0) + 3
              < params.length by omega),
            List.getElem?_append_left (show 3 + colorComps (params[1]?.getD 0) + 4
              < params.length by omega)]
        exact h
      case neg =>
        rw [if_neg hco] at h
        exact absurd h (by simp)
    case neg =>
      rw [if_neg hbb] at h
      rw [if_neg hbb]
      exact h
  case neg =>
    have hno1 : ¬ (nonzeroBool (params[2]?.getD 0) = true ∧
        params.length < 3 + colorComps (params[1]?.getD 0)) := by
      intro hcontra
      exact hbg hcontra.1
    have hno2 : ¬ (nonzeroBool (params[2]?.getD 0) = true ∧
        (params ++ ext).length < 3 + colorComps (params[1]?.getD 0)) := by
      intro hcontra
      exact hbg hcontra.1
    rw [if_neg hno1] at h
    rw [if_neg hno2]
    simp only [if_neg hbg] at h ⊢
    have hlt1 : 3 < params.length := by omega
    have hlt2 : 3 < (params ++ ext).length := by omega
    rw [if_pos hlt1] at h
    rw [if_pos hlt2]
    have h3 : (params ++ ext)[3]? = params[3]? := List.getElem?_append_left hlt1
    rw [h3]
    by_cases hbb : nonzeroBool (params[3]?.getD 0) = true
    case pos =>
      rw [if_pos hbb] at h
      rw [if_pos hbb]
      by_cases hco : 3 + 5 ≤ params.length
      case pos =>
        rw [if_pos hco] at h
        rw [if_pos (show 3 + 5 ≤ (params ++ ext).length by omega)]
        rw [List.getElem?_append_left (show 3 + 1 < params.length by omega),
            List.getElem?_append_left (show 3 + 2 < params.length by omega),
            List.getElem?_append_left (show 3 + 3 < params.length by omega),
            List.getElem?_append_left (show 3 + 4 < params.length by omega)]
        exact h
      case neg =>
        rw [if_neg hco] at h
        exact absurd h (by simp)
    case neg =>
      rw [if_neg hbb] at h
      rw [if_neg hbb]
      exact h

/-- Counterexample to C2: the concrete operand stream
[6,4,1,0,0,0,0,1,0] is truncated (shading type 6 with a cmyk background
color and bbox flag 1 requires four bbox coordinates, only one is present),
yet shfill emits no diagnostic: the failing read happens while the header is
parsed, before the try block, so the exception escapes the function instead
of aborting only the mesh. -/
theorem shfill_header_truncation_escapes :
    (shfill [6, 4, 1, 0, 0, 0, 0, 1, 0] emptyCS idMatrix3).diag = false ∧
    (shfill [6, 4, 1, 0, 0, 0, 0, 1, 0] emptyCS idMatrix3).err = true ∧
    (shfill [6, 4, 1, 0, 0, 0, 0, 1, 0] emptyCS idMatrix3).out = [] := by
  decide

/-- C2 amended: for every shfill operand stream whose header (flags,
background color, clip rectangle) is complete and whose patch records are
truncated, shfill emits a diagnostic, returns normally (no escaping error,
so only the remaining mesh is abandoned), and the emitted output is a
prefix of the output produced on any completion of the operand stream: every
already-emitted patch segment group is unchanged and no partial group is
appended. -/
theorem shfill_truncated_patch_records (params ext : List ℚ) (cs : ClippingStack)
    (ctm : Matrix3) (pos : ℕ) (bb : Option (ℚ × ℚ × ℚ × ℚ))
    (hlen : 9 ≤ params.length)
    (hhdr : headerRead params = some (pos, bb))
    (htr : (runMesh (toInt (params[0]?.getD 0)) (colorComps (params[1]?.getD 0))
        params pos).2 = MeshOutcome.truncated) :
    (shfill params cs ctm).diag = true ∧
    (shfill params cs ctm).err = false ∧
    ∃ t, (shfill params cs ctm).out ++ t = (shfill (params ++ ext) cs ctm).out := by
  have hlen1 : ¬ params.length < 9 := by omega
  have hlen2 : ¬ (params ++ ext).length < 9 := by
    rw [List.length_append]
    omega
  have hhdr2 := headerRead_append params ext _ hlen hhdr
  have hty : (params ++ ext)[0]? = params[0]? := List.getElem?_append_left (by omega)
  have hcm : (params ++ ext)[1]? = params[1]? := List.getElem?_append_left (by omega)
  obtain ⟨t, ht⟩ := runMesh_out_append (toInt (params[0]?.getD 0))
    (colorComps (params[1]?.getD 0)) params ext pos
  cases bb with
  | none =>
    simp only [shfill, if_neg hlen1, if_neg hlen2, hhdr, hhdr2, hty, hcm]
    exact ⟨by rw [htr]; rfl, by trivial, ⟨t, ht⟩⟩
  | some q =>
    obtain ⟨x1, y1, x2, y2⟩ := q
    simp only [shfill, if_neg hlen1, if_neg hlen2, hhdr, hhdr2, hty, hcm]
    exact ⟨by rw [htr]; rfl, by trivial, ⟨t, ht⟩⟩

/-- Witness for the amended C2 at a concrete input: a type 6 gray mesh whose
single patch record is cut off after four of its required 28 operands. -/
theorem shfill_truncated_patch_records_witness :
    (shfill [6, 1, 0, 0, 0, 1, 2, 3, 4] emptyCS idMatrix3).diag = true ∧
    (shfill [6, 1, 0, 0, 0, 1, 2, 3, 4] emptyCS idMatrix3).err = false ∧
    ∃ t, (shfill [6, 1, 0, 0, 0, 1, 2, 3, 4] emptyCS idMatrix3).out ++ t
         = (shfill ([6, 1, 0, 0, 0, 1, 2, 3, 4] ++ [9, 9]) emptyCS idMatrix3).out :=
  shfill_truncated_patch_records [6, 1, 0, 0, 0, 1, 2, 3, 4] [9, 9] emptyCS idMatrix3
    4 none (by decide) (by decide) (by decide)
